import Mathlib

/-!
Shallow embedding of the state core of a dwm variant (xcb port), source file
dwm.c, together with proofs about the claims of its specification.

Machine integers are modelled as `Int` with explicit wrap-around at every
store into a C `uint16_t` (`u16`) or `int16_t` (`i16`) location; `float`
quantities (`mfact`, `mina`, `maxa`) are modelled as `Rat`, with `lroundf`
modelled as round-half-away-from-zero (`lroundQ`) and float division by zero
modelled by `fdivF` (an out-of-range surrogate for the IEEE infinity, see
there).  C `/` and `%` on `int` are truncated division: `Int.tdiv` and
`Int.tmod`.
-/

/-- Wrap an integer into the range of a C `uint16_t`, as happens on every
store into a `uint16_t` object. -/
def u16 (n : ℤ) : ℤ := n % 65536

/-- Wrap an integer into the range of a C `int16_t`, as happens on every
store into an `int16_t` object. -/
def i16 (n : ℤ) : ℤ := (n + 32768) % 65536 - 32768

/-- Floor of a rational, computably (`q.num / q.den` with Euclidean
division). -/
def qfloor (q : ℚ) : ℤ := q.num / (q.den : ℤ)

/-- C `lroundf`: round to nearest, halfway cases away from zero. -/
def lroundQ (q : ℚ) : ℤ :=
  if 0 ≤ q then qfloor (q + 1/2) else -qfloor (-q + 1/2)

/-- Float division `(float)a / b` as used in `applysizehints`.  The operands
there are nonnegative; division by zero yields IEEE `inf` (for `a ≠ 0`) or
`NaN` (for `a = 0`).  Every use of the quotient is a comparison against a
finite float, so `inf` is modelled by a rational larger than every finite
float (`2^200`) and `NaN` by `0` together with the fact that the comparisons
`maxa < NaN` and `mina < NaN` are false in C: with both `mina, maxa`
positive and finite, `maxa < 0` and `mina < 0` are false as well. -/
def fdivF (a b : ℚ) : ℚ :=
  if b = 0 then (if a = 0 then 0 else 2 ^ 200) else a / b

/-- Number of tag labels in config.def.h: `static const char *tags[] =
{ "1", ..., "9" };`. -/
def tagsLength : ℕ := 9

/-- `TAGMASK = ((1 << LENGTH(tags)) - 1)`. -/
def TAGMASK : ℕ := (1 <<< tagsLength) - 1

/-- Per-client record, the fields of `struct Client` used by the pure
state core.  `x y` live in `int16_t`, `w h bw` in `uint16_t`, the size-hint
fields in `int32_t` (kept as unbounded `Int`: the program only stores X
reply values there), `mina maxa` are `float`. -/
structure Client where
  win : ℕ
  x : ℤ
  y : ℤ
  w : ℤ
  h : ℤ
  bw : ℤ
  basew : ℤ
  baseh : ℤ
  incw : ℤ
  inch : ℤ
  maxw : ℤ
  maxh : ℤ
  minw : ℤ
  minh : ℤ
  mina : ℚ
  maxa : ℚ
  tags : ℕ
  isfixed : Bool
  isfloating : Bool
  deriving DecidableEq, Repr

/-- Monitor geometry fields of `struct Monitor` used by the geometry
engine (`mx my mw mh` screen rect, `wx wy ww wh` work-area rect,
`mfact`). -/
structure MonGeom where
  mx : ℤ
  my : ℤ
  mw : ℤ
  mh : ℤ
  wx : ℤ
  wy : ℤ
  ww : ℤ
  wh : ℤ
  mfact : ℚ
  curtags : ℕ
  deriving DecidableEq, Repr

/-- Relevant global state: screen size `sw sh`, bar height `bh`, and the
config constant `resizehints`. -/
structure Params where
  sw : ℤ
  sh : ℤ
  bh : ℤ
  resizehints : Bool
  deriving DecidableEq, Repr

/-- `ISVISIBLE(C)`: `C->tags & C->mon->tagset[C->mon->seltags]`. -/
def isvisible (m : MonGeom) (c : Client) : Bool := c.tags &&& m.curtags ≠ 0

/-- Proposed geometry tuple threaded through `applysizehints` (the four
`*x *y *w *h` out-parameters). -/
structure Geom where
  x : ℤ
  y : ℤ
  w : ℤ
  h : ℤ
  deriving DecidableEq, Repr

/-- The size-hint half of `applysizehints` (everything under
`if(resizehints || c->isfloating)`), acting on the current `*w, *h`.
Every write to `*w`/`*h` wraps into `uint16_t`. -/
def applyhintsWH (c : Client) (w0 h0 : ℤ) : ℤ × ℤ :=
  -- int baseismin = c->basew == c->minw && c->baseh == c->minh;
  let baseismin : Bool := c.basew = c.minw ∧ c.baseh = c.minh
  -- if(!baseismin) { *w -= c->basew; *h -= c->baseh; }
  let w := if baseismin then w0 else u16 (w0 - c.basew)
  let h := if baseismin then h0 else u16 (h0 - c.baseh)
  -- if(c->mina > 0 && c->maxa > 0) { aspect adjustment }
  let wh :=
    if 0 < c.mina ∧ 0 < c.maxa then
      if c.maxa < fdivF w h then (u16 (lroundQ (h * c.maxa)), h)
      else if c.mina < fdivF h w then (w, u16 (lroundQ (w * c.mina)))
      else (w, h)
    else (w, h)
  let w := wh.1
  let h := wh.2
  -- if(baseismin) { *w -= c->basew; *h -= c->baseh; }
  let w := if baseismin then u16 (w - c.basew) else w
  let h := if baseismin then u16 (h - c.baseh) else h
  -- if(c->incw) *w -= *w % c->incw;  if(c->inch) *h -= *h % c->inch;
  let w := if c.incw ≠ 0 then u16 (w - Int.tmod w c.incw) else w
  let h := if c.inch ≠ 0 then u16 (h - Int.tmod h c.inch) else h
  -- *w += c->basew; *h += c->baseh;
  let w := u16 (w + c.basew)
  let h := u16 (h + c.baseh)
  -- *w = MAX(*w, c->minw); *h = MAX(*h, c->minh);
  let w := u16 (max w c.minw)
  let h := u16 (max h c.minh)
  -- if(c->maxw) *w = MIN(*w, c->maxw);  if(c->maxh) *h = MIN(*h, c->maxh);
  let w := if c.maxw ≠ 0 then u16 (min w c.maxw) else w
  let h := if c.maxh ≠ 0 then u16 (min h c.maxh) else h
  (w, h)

/-- `applysizehints(c, &x, &y, &w, &h, interact)`: returns the clamped
tuple and the changed flag `*x != c->x || *y != c->y || *w != c->w ||
*h != c->h`.  The parameters are received as `int16_t`/`uint16_t`, hence
the wraps at entry. -/
def applysizehints (p : Params) (m : MonGeom) (c : Client)
    (x0 y0 w0 h0 : ℤ) (interact : Bool) : Geom × Bool :=
  let x := i16 x0
  let y := i16 y0
  -- *w = MAX(1, *w); *h = MAX(1, *h);
  let w := u16 (max 1 (u16 w0))
  let h := u16 (max 1 (u16 h0))
  -- on-screen repositioning, interactive against the screen rect,
  -- otherwise against the client's monitor rect
  let x := if interact then
      if x > p.sw then i16 (p.sw - (c.w + 2 * c.bw)) else x
    else
      if x > m.mx + m.mw then i16 (m.mx + m.mw - (c.w + 2 * c.bw)) else x
  let y := if interact then
      if y > p.sh then i16 (p.sh - (c.h + 2 * c.bw)) else y
    else
      if y > m.my + m.mh then i16 (m.my + m.mh - (c.h + 2 * c.bw)) else y
  let x := if interact then
      if x + w + 2 * c.bw < 0 then 0 else x
    else
      if x + w + 2 * c.bw < m.mx then i16 m.mx else x
  let y := if interact then
      if y + h + 2 * c.bw < 0 then 0 else y
    else
      if y + h + 2 * c.bw < m.my then i16 m.my else y
  -- if(*h < bh) *h = bh;  if(*w < bh) *w = bh;
  let h := if h < p.bh then u16 p.bh else h
  let w := if w < p.bh then u16 p.bh else w
  let wh := if p.resizehints || c.isfloating then applyhintsWH c w h else (w, h)
  (⟨x, y, wh.1, wh.2⟩, x ≠ c.x ∨ y ≠ c.y ∨ wh.1 ≠ c.w ∨ wh.2 ≠ c.h)

/-- Store a geometry tuple into the client record (`c->x = x; c->y = y;
c->w = w; c->h = h;` in `resize`). -/
def setGeom (c : Client) (g : Geom) : Client :=
  { c with x := g.x, y := g.y, w := g.w, h := g.h }

/-- `resize(c, x, y, w, h, interact)`: commit the clamped tuple when
`applysizehints` reports a change (when it reports none, the stored
geometry already equals the tuple). -/
def resize (p : Params) (m : MonGeom) (c : Client)
    (x y w h : ℤ) (interact : Bool) : Client :=
  let r := applysizehints p m c x y w h interact
  if r.2 then setGeom c r.1 else c

/-- `nexttiled` advances over clients that are floating or invisible: the
clients it yields are the visible non-floating ones. -/
def nexttiledPred (m : MonGeom) (c : Client) : Bool := !c.isfloating && isvisible m c

/-- The stack loop of `tile`: `for(i = 0, c = nexttiled(c->next); c;
c = nexttiled(c->next), i++) { resize(...); if(h != m->wh) y = c->y +
HEIGHT(c); }`.  `x y` are `int16_t` locals, `w h` are `uint16_t` locals,
`s` is the stack count (`n` after `--n`), `i` the loop counter. -/
def tileStack (p : Params) (m : MonGeom) (x y w h : ℤ) (s : ℕ) (i : ℕ) :
    List Client → List Client
  | [] => []
  | c :: rest =>
    if nexttiledPred m c then
      let c2 := resize p m c x y (w - 2 * c.bw)
        (if i + 1 = s then m.wy + m.wh - y - 2 * c.bw else h - 2 * c.bw) false
      let y2 := if h ≠ m.wh then i16 (c2.y + (c2.h + 2 * c2.bw)) else y
      c2 :: tileStack p m x y2 w h s (i + 1) rest
    else
      c :: tileStack p m x y w h s i rest

/-- The body of `tile` after the count: walks to the first visible
non-floating client (the master), resizes it, and runs the stack loop on
the rest.  `n` is the precomputed count of visible non-floating clients.
`m->wh / n` is a C `int / unsigned` division; the model uses Euclidean
division, which agrees with it for the nonnegative work-area heights the
program maintains. -/
def tileGo (p : Params) (m : MonGeom) (n : ℕ) : List Client → List Client
  | [] => []
  | c :: rest =>
    if nexttiledPred m c then
      -- mw = lroundf(m->mfact * m->ww);  (uint16_t store)
      let mwid := u16 (lroundQ (m.mfact * m.ww))
      let cm := resize p m c m.wx m.wy
        ((if n = 1 then m.ww else mwid) - 2 * c.bw) (m.wh - 2 * c.bw) false
      if n - 1 = 0 then cm :: rest
      else
        let x := i16 (if m.wx + mwid > cm.x + cm.w
                      then cm.x + cm.w + 2 * cm.bw else m.wx + mwid)
        let y := m.wy
        let w := u16 (if m.wx + mwid > cm.x + cm.w
                      then m.wx + m.ww - x else m.ww - mwid)
        let h := u16 (m.wh / (n - 1 : ℕ))
        let h := if h < p.bh then m.wh else h
        cm :: tileStack p m x y w h (n - 1) 0 rest
    else
      c :: tileGo p m n rest

/-- `tile(m)`: count the visible non-floating clients; if none, return;
otherwise resize master and stack.  The result is the client list with
the committed geometries. -/
def tile (p : Params) (m : MonGeom) (cs : List Client) : List Client :=
  let n := (cs.filter (nexttiledPred m)).length
  if n = 0 then cs else tileGo p m n cs

/-- Border-inclusive area of a client's committed rectangle,
`WIDTH(c) * HEIGHT(c)`. -/
def clientArea (c : Client) : ℤ := (c.w + 2 * c.bw) * (c.h + 2 * c.bw)

/-- Sum of border-inclusive areas of the visible non-floating clients of a
list. -/
def sumArea (m : MonGeom) (cs : List Client) : ℤ :=
  ((cs.filter (nexttiledPred m)).map clientArea).sum

/-- One entry of the static `rules` table.  Patterns are optional strings
(`NULL` = absent); strings are modelled as lists of symbols. -/
structure Rule where
  rclass : Option (List ℕ)
  rinstance : Option (List ℕ)
  rtitle : Option (List ℕ)
  rtags : ℕ
  risfloating : Bool
  rmonitor : ℤ
  deriving DecidableEq, Repr

/-- The monitor data `applyrules` touches: its `num` and its current
tagset `tagset[seltags]`. -/
structure RMon where
  num : ℤ
  curtags : ℕ
  deriving DecidableEq, Repr

/-- A rule matches when each of its non-null patterns occurs as a
substring (`strstr`) of the corresponding attribute. -/
def ruleMatches (name cls inst : List ℕ) (r : Rule) : Bool :=
  (r.rtitle.all fun pat => decide (pat <:+: name)) &&
  (r.rclass.all fun pat => decide (pat <:+: cls)) &&
  (r.rinstance.all fun pat => decide (pat <:+: inst))

/-- One iteration of the rule loop of `applyrules`: on a match,
`c->isfloating = r->isfloating; c->tags |= r->tags;` and
`for(m = mons; m && m->num != r->monitor; m = m->next); if(m) c->mon = m;`
(the first monitor whose `num` equals the rule's monitor index, kept
unchanged when none exists). -/
def applyrulesStep (mons : List RMon) (name cls inst : List ℕ)
    (acc : ℕ × Bool × RMon) (r : Rule) : ℕ × Bool × RMon :=
  if ruleMatches name cls inst r then
    (acc.1 ||| r.rtags, r.risfloating,
     ((mons.find? (fun (mo : RMon) => mo.num = r.rmonitor)).getD acc.2.2))
  else acc

/-- `applyrules(c)`: `wmclass` is the `WM_CLASS` reply (`none` models a
failed `xcb_get_wm_class_reply`, in which case the source skips rule
matching entirely; `NULL` class or instance fields inside a successful
reply are replaced by the literal "broken" before this point, so the two
strings are modelled as already extracted).  Returns the final
`(tags, isfloating, mon)` triple of the client. -/
def applyrules (rules : List Rule) (mons : List RMon) (name : List ℕ)
    (wmclass : Option (List ℕ × List ℕ)) (mon0 : RMon) : ℕ × Bool × RMon :=
  -- c->isfloating = c->tags = 0;
  let init : ℕ × Bool × RMon := (0, false, mon0)
  let res := match wmclass with
    | none => init
    | some (cls, inst) =>
        rules.foldl (applyrulesStep mons name cls inst) init
  -- c->tags = c->tags & TAGMASK ? c->tags & TAGMASK
  --                             : c->mon->tagset[c->mon->seltags];
  let tags := if res.1 &&& TAGMASK ≠ 0 then res.1 &&& TAGMASK
              else res.2.2.curtags
  (tags, res.2.1, res.2.2)

/-- Claim-side description of rule matching: the rules that match. -/
def matchingRules (rules : List Rule) (name cls inst : List ℕ) : List Rule :=
  rules.filter (ruleMatches name cls inst)

/-- Claim-side tags: the union (bitwise or) of the tag masks of all
matching rules. -/
def claimTags (rules : List Rule) (name cls inst : List ℕ) : ℕ :=
  ((matchingRules rules name cls inst).map Rule.rtags).foldl (· ||| ·) 0

/-- Claim-side float flag: each later matching rule overwrites
`isfloating`, so the flag of the last matching rule (initially 0). -/
def claimFloat (rules : List Rule) (name cls inst : List ℕ) : Bool :=
  ((matchingRules rules name cls inst).map Rule.risfloating).getLastD false

/-- Claim-side monitor: each later matching rule whose monitor index
resolves to an existing monitor overwrites `mon`. -/
def claimMon (rules : List Rule) (mons : List RMon) (name cls inst : List ℕ)
    (mon0 : RMon) : RMon :=
  (matchingRules rules name cls inst).foldl
    (fun (mo : RMon) (r : Rule) => ((mons.find? (fun (x : RMon) => x.num = r.rmonitor)).getD mo)) mon0

/-- `setmfact(arg)` acting on the selected monitor's `mfact`; `ltArrange`
is whether `selmon->lt[selmon->sellt]->arrange` is non-null, `arg = none`
models a null `arg` pointer.  Returns the new `mfact` and whether
`arrange` was invoked.  The float literals `1.0f`, `0.1f`, `0.9f` are
modelled by the corresponding rationals (every comparison settled in the
development is far from their representation error). -/
def setmfact (mfact : ℚ) (ltArrange : Bool) (arg : Option ℚ) : ℚ × Bool :=
  match arg with
  | none => (mfact, false)
  | some a =>
    if !ltArrange then (mfact, false)
    else
      -- f = arg->f < 1.0 ? arg->f + selmon->mfact : arg->f - 1.0;
      let f := if a < 1 then a + mfact else a - 1
      -- if(f < 0.1 || f > 0.9) return;
      if f < 1/10 ∨ 9/10 < f then (mfact, false)
      else (f, true)

/-- A text-property reply (`xcb_get_text_property_reply_t`): its length,
whether its encoding is `XCB_ATOM_STRING`, and its bytes. -/
structure TextProp where
  len : ℕ
  isString : Bool
  name : String
  deriving DecidableEq, Repr

/-- `gettextprop(w, atom, text, size)`, `reply = none` modelling a failed
`xcb_get_text_property_reply`.  In the source, after a successful reply,

  if(!tp.name_len)
    xcb_get_text_property_reply_wipe(&tp);
    return false;

has no braces: the `return false` is unconditional, so the
`strncpy(text, tp.name, size - 1)` under the `encoding == XCB_ATOM_STRING`
test below it is unreachable and the function always returns false with
`text` still the empty string stored at entry (`text[0] = '\0'`). -/
def gettextprop (reply : Option TextProp) : Bool × String :=
  match reply with
  | none => (false, "")
  | some _ => (false, "")

/-- The variant of `gettextprop` that the source's indentation (and its
otherwise dead `strncpy`) intends: return false only on an empty
property, otherwise copy up to `size - 1 = 255` bytes for `STRING`
encoded data and return true. -/
def gettextpropIntended (reply : Option TextProp) : Bool × String :=
  match reply with
  | none => (false, "")
  | some tp =>
    if tp.len = 0 then (false, "")
    else (true, if tp.isString then tp.name.take 255 else "")

/-- The observable status text: either text taken from the root window's
name property, or the built-in fallback `"dwm-"VERSION` (`VERSION` is a
build-time macro, kept symbolic). -/
inductive StatusText where
  | fromRoot (s : String)
  | fallbackVersion
  deriving DecidableEq, Repr

/-- `updatestatus()`: `if(!gettextprop(root, XCB_ATOM_WM_NAME, stext,
sizeof(stext))) strcpy(stext, "dwm-"VERSION);`. -/
def updatestatus (rootName : Option TextProp) : StatusText :=
  let r := gettextprop rootName
  if r.1 then StatusText.fromRoot r.2 else StatusText.fallbackVersion

/-- `updatestatus` over the brace-fixed `gettextprop`, for comparison. -/
def updatestatusIntended (rootName : Option TextProp) : StatusText :=
  let r := gettextpropIntended rootName
  if r.1 then StatusText.fromRoot r.2 else StatusText.fallbackVersion

/-- A `WM_NORMAL_HINTS` reply (`xcb_size_hints_t`): one Bool per flag bit
the function tests, plus the numeric fields.  A failed reply is modelled
by `none` (the source then forces `size.flags = XCB_SIZE_HINT_P_SIZE`,
which none of the tested flags match). -/
structure SizeHints where
  has_base : Bool
  has_minsize : Bool
  has_inc : Bool
  has_maxsize : Bool
  has_aspect : Bool
  base_width : ℤ
  base_height : ℤ
  min_width : ℤ
  min_height : ℤ
  max_width : ℤ
  max_height : ℤ
  width_inc : ℤ
  height_inc : ℤ
  min_aspect_num : ℤ
  min_aspect_den : ℤ
  max_aspect_num : ℤ
  max_aspect_den : ℤ
  deriving DecidableEq, Repr

/-- `updatesizehints(c)`: cache base/inc/max/min sizes and the two aspect
floats, then derive `isfixed`.  The casts `(float)num / den` are modelled
by rational division (the claims settled here use denominators nonzero
and values exactly representable). -/
def updatesizehints (reply : Option SizeHints) (c : Client) : Client :=
  let size : SizeHints := match reply with
    | some s => s
    | none => ⟨false, false, false, false, false, 0, 0, 0, 0, 0, 0, 0, 0, 0, 0, 0, 0⟩
  let c := if size.has_base then
      { c with basew := size.base_width, baseh := size.base_height }
    else if size.has_minsize then
      { c with basew := size.min_width, baseh := size.min_height }
    else { c with basew := 0, baseh := 0 }
  let c := if size.has_inc then
      { c with incw := size.width_inc, inch := size.height_inc }
    else { c with incw := 0, inch := 0 }
  let c := if size.has_maxsize then
      { c with maxw := size.max_width, maxh := size.max_height }
    else { c with maxw := 0, maxh := 0 }
  let c := if size.has_minsize then
      { c with minw := size.min_width, minh := size.min_height }
    else if size.has_base then
      { c with minw := size.base_width, minh := size.base_height }
    else { c with minw := 0, minh := 0 }
  let c := if size.has_aspect then
      { c with mina := (size.min_aspect_num : ℚ) / (size.min_aspect_den : ℚ),
               maxa := (size.max_aspect_num : ℚ) / (size.max_aspect_den : ℚ) }
    else { c with maxa := 0, mina := 0 }
  { c with isfixed := decide (c.maxw ≠ 0 ∧ c.minw ≠ 0 ∧ c.maxh ≠ 0 ∧
                              c.minh ≠ 0 ∧ c.maxw = c.minw ∧ c.maxh = c.minh) }

/-- The view state of a monitor: `tagset[0]`, `tagset[1]` and the 1-bit
selector `seltags`. -/
structure ViewState where
  ts0 : ℕ
  ts1 : ℕ
  seltags : Bool
  deriving DecidableEq, Repr

/-- `tagset[seltags]`. -/
def tagsetSel (v : ViewState) : ℕ := if v.seltags then v.ts1 else v.ts0

/-- Store into `tagset[seltags]`. -/
def setTagsetSel (v : ViewState) (t : ℕ) : ViewState :=
  if v.seltags then { v with ts1 := t } else { v with ts0 := t }

/-- `toggleview(arg)`: xor the argument's masked tags into the current
tagset, commit only when the result is nonzero. -/
def toggleview (v : ViewState) (argui : ℕ) : ViewState :=
  let newtagset := tagsetSel v ^^^ (argui &&& TAGMASK)
  if newtagset ≠ 0 then setTagsetSel v newtagset else v

/-- The declared length of `struct NumTags { char limitexceeded[
LENGTH(tags) > 31 ? -1 : 1]; }` for a configuration with `n` tag
labels. -/
def numTagsFieldLength (n : ℕ) : ℤ := if n > 31 then -1 else 1

/-- A configuration with `n` tag labels compiles iff the array length of
the build-time check is positive (a negative array length is a
compile-time error). -/
def tagCountCompiles (n : ℕ) : Bool := 0 < numTagsFieldLength n

/-- The focus-stack state of a monitor that `detachstack` touches: the
stack list, the selected client, and the current tagset. -/
structure FocusMon where
  stack : List Client
  sel : Option Client
  curtags : ℕ
  deriving DecidableEq, Repr

/-- `ISVISIBLE` against an explicit current tagset. -/
def visC (curtags : ℕ) (c : Client) : Bool := c.tags &&& curtags ≠ 0

/-- The unlink loop of `detachstack`: `for(tc = &c->mon->stack; *tc &&
*tc != c; tc = &(*tc)->snext); *tc = c->snext;`.  Pointer equality of
clients is window-handle equality (window handles are unique).  When `c`
is not on the stack the source writes `c->snext` through the terminal
link, a dangling write; every theorem below invokes this only with `c`
on the stack, where the loop removes the first occurrence. -/
def removeFirstWin : List Client → ℕ → List Client
  | [], _ => []
  | t :: ts, wid => if t.win = wid then ts else t :: removeFirstWin ts wid

/-- `detachstack(c)`: unlink `c` from its monitor's stack; if `c` was the
selected client, re-select the topmost visible client of the remaining
stack (or null). -/
def detachstack (fm : FocusMon) (c : Client) : FocusMon :=
  let st := removeFirstWin fm.stack c.win
  let sel := match fm.sel with
    | some s => if s.win = c.win then st.find? (fun t => visC fm.curtags t)
                else fm.sel
    | none => fm.sel
  ⟨st, sel, fm.curtags⟩

/-- `togglefloating(arg)` on the selected client's floating flag:
`selmon->sel->isfloating = !selmon->sel->isfloating ||
selmon->sel->isfixed;` (the subsequent `resize` call re-submits the
stored geometry and does not touch the flag). -/
def togglefloating (sel : Option Client) : Option Client :=
  match sel with
  | none => none
  | some c => some { c with isfloating := !c.isfloating || c.isfixed }

/-! Concrete fixtures used by counterexamples and witnesses. -/

/-- A neutral 800x600 monitor with full-screen work area, `mfact` 0.55 and
tagset `{1}`. -/
def cexMon : MonGeom := ⟨0, 0, 800, 600, 0, 0, 800, 600, 11/20, 1⟩

/-- Globals: 800x600 screen, bar height 1, `resizehints` on. -/
def cexPar : Params := ⟨800, 600, 1, true⟩

/-- A client with a width increment of 3 and a maximum width of 4 and no
other hints, geometry (0,0,4,10) (the output of a first
`applysizehints` call on proposal (0,0,10,10)). -/
def cexIncCl : Client :=
  ⟨1, 0, 0, 4, 10, 0, 0, 0, 3, 0, 4, 0, 0, 0, 0, 0, 1, false, false⟩

/-- A client with maximum size 10x10 and no other hints, geometry
(-50,0,10,10) (the output of a first call on proposal (-50,0,100,100):
hint clamping shrank the width after the on-screen guards ran). -/
def cexMaxCl : Client :=
  ⟨2, -50, 0, 10, 10, 0, 0, 0, 0, 0, 10, 10, 0, 0, 0, 0, 1, false, false⟩

/-- A client with aspect limits `mina = 0.5`, `maxa = 1.5` (both exactly
representable floats) and geometry (0,0,15,10) (the output of a first
call on proposal (0,0,100,10)). -/
def cexAspCl : Client :=
  ⟨3, 0, 0, 15, 10, 0, 0, 0, 0, 0, 0, 0, 0, 0, 1/2, 3/2, 1, false, false⟩

/-- A hint-free visible non-floating client with window handle `i`. -/
def plainCl (i : ℕ) : Client :=
  ⟨i, 0, 0, 1, 1, 0, 0, 0, 0, 0, 0, 0, 0, 0, 0, 0, 1, false, false⟩

/-- A hint-free visible non-floating client with border width 1. -/
def borderCl (i : ℕ) : Client :=
  ⟨i, 0, 0, 1, 1, 1, 0, 0, 0, 0, 0, 0, 0, 0, 0, 0, 1, false, false⟩

/-- Globals for the tile fixtures: bar height 6, `resizehints` off. -/
def tilePar : Params := ⟨800, 600, 6, false⟩

/-- A monitor with a 100x10 work area and `mfact = 0.5`: with three tiled
clients the stack row height 10/2 = 5 falls below the bar height 6, the
degenerate branch of `tile`. -/
def tileDegMon : MonGeom := ⟨0, 0, 800, 600, 0, 0, 100, 10, 1/2, 1⟩

/-- A monitor with a 100x100 work area and `mfact = 0.5`. -/
def tileOkMon : MonGeom := ⟨0, 0, 800, 600, 0, 0, 100, 100, 1/2, 1⟩

/-- A `WM_NORMAL_HINTS` reply specifying only aspect limits: minimum
aspect 2/1, maximum aspect 3/1. -/
def cexAspectHints : SizeHints :=
  ⟨false, false, false, false, true, 0, 0, 0, 0, 0, 0, 0, 0, 2, 1, 3, 1⟩

/-- A `WM_NORMAL_HINTS` reply with no aspect flag. -/
def cexNoAspectHints : SizeHints :=
  ⟨true, false, false, false, false, 7, 8, 0, 0, 0, 0, 0, 0, 2, 1, 3, 1⟩

/-- A fixed floating client (as `updatesizehints` produces for
`min == max`). -/
def cexFixedCl : Client :=
  ⟨4, 0, 0, 10, 10, 0, 0, 0, 0, 0, 10, 10, 10, 10, 0, 0, 1, true, true⟩

/-- Focus-stack fixtures: client 1 on tag 2 (invisible under tagset 1),
client 2 and 3 on tags intersecting tagset 1. -/
def stkCl1 : Client := ⟨1, 0, 0, 1, 1, 0, 0, 0, 0, 0, 0, 0, 0, 0, 0, 0, 2, false, false⟩

/-- Second stack fixture client, visible on tagset 1. -/
def stkCl2 : Client := ⟨2, 0, 0, 1, 1, 0, 0, 0, 0, 0, 0, 0, 0, 0, 0, 0, 1, false, false⟩

/-- Third stack fixture client, visible on tagset 1. -/
def stkCl3 : Client := ⟨3, 0, 0, 1, 1, 0, 0, 0, 0, 0, 0, 0, 0, 0, 0, 0, 3, false, false⟩

/-- Rule fixtures: a floating catch-all for class [10] and a tagging rule
for class [10,11] bound to monitor 0. -/
def cexRule1 : Rule := ⟨some [10], none, none, 0, true, -1⟩

/-- Second rule fixture. -/
def cexRule2 : Rule := ⟨some [10, 11], none, none, 4, false, 0⟩

/-- Monitor-list fixture for `applyrules`. -/
def cexRMons : List RMon := [⟨0, 1⟩, ⟨1, 2⟩]

/-- The width/height pipeline of `applysizehints` on one dimension,
entry conversion, `MAX(1, v)` and the bar-height floor: used to
characterize the size half of the function. -/
def pipeFloor (bh v : ℤ) : ℤ :=
  let v1 := u16 (max 1 (u16 v))
  if v1 < bh then u16 bh else v1

/-- The hint half of the one-dimensional pipeline with no aspect limits
and no increments in force: base subtraction and re-addition (which
cancel modulo 2^16), then the min clamp, then the max clamp when the max
hint is nonzero. -/
def clampDim (base mn mx v : ℤ) : ℤ :=
  let v1 := u16 (u16 (v - base) + base)
  let v2 := u16 (max v1 mn)
  if mx ≠ 0 then u16 (min v2 mx) else v2

/-- The full one-dimensional pipeline of `applysizehints` (no aspect
limits, no increments). -/
def pipeDim (bh base mn mx v : ℤ) : ℤ := clampDim base mn mx (pipeFloor bh v)

/-- A hint-free client whose stored geometry (0,0,100,50) is the output
of a first `applysizehints` call on proposal (0,0,100,50). -/
def idemCl : Client := ⟨6, 0, 0, 100, 50, 0, 0, 0, 0, 0, 0, 0, 0, 0, 0, 0, 1, false, false⟩

/-! Helper lemmas for the view state. -/

lemma tagsetSel_set (v : ViewState) (t : ℕ) : tagsetSel (setTagsetSel v t) = t := by
  cases v with
  | mk a b s => cases s <;> simp [tagsetSel, setTagsetSel]

lemma setTagsetSel_twice (v : ViewState) (a b : ℕ) :
    setTagsetSel (setTagsetSel v a) b = setTagsetSel v b := by
  cases v with
  | mk x y s => cases s <;> simp [setTagsetSel]

lemma setTagsetSel_self (v : ViewState) : setTagsetSel v (tagsetSel v) = v := by
  cases v with
  | mk x y s => cases s <;> simp [setTagsetSel, tagsetSel]

/-- Claim C7: for every monitor (with the nonzero current tagset every
reachable monitor has) and every tag argument `x`, `toggleview(x);
toggleview(x)` returns the monitor's current tagset to its prior value;
when the first toggle would produce an all-zero mask it is ignored and the
tagset is already unchanged. -/
theorem toggleview_toggleview_id (v : ViewState) (x : ℕ) (h : tagsetSel v ≠ 0) :
    toggleview (toggleview v x) x = v := by
  unfold toggleview
  by_cases h1 : tagsetSel v ^^^ (x &&& TAGMASK) = 0
  · simp [h1]
  · rw [if_pos h1, tagsetSel_set, Nat.xor_cancel_right]
    rw [if_pos h, setTagsetSel_twice, setTagsetSel_self]

/-- Witness for C7: a concrete double toggle, tagset 5, argument 3. -/
theorem toggleview_toggleview_id_witness :
    tagsetSel ⟨5, 1, false⟩ ≠ 0 ∧
    toggleview (toggleview ⟨5, 1, false⟩ 3) 3 = ⟨5, 1, false⟩ :=
  ⟨by decide, toggleview_toggleview_id ⟨5, 1, false⟩ 3 (by decide)⟩

/-- Claim C8, counterexample: the build-time check accepts a configuration
with ten tag labels (`LENGTH(tags) > 31 ? -1 : 1` is `1` at `n = 10`), so
"ten tag labels do not compile" is false. -/
theorem ten_tag_labels_compile : tagCountCompiles 10 = true := by decide

/-- Claim C8, amended: nine tag labels compile, and so do ten and
thirty-one; the static assertion rejects only configurations with more
than 31 tag labels (here: thirty-two). -/
theorem numtags_assert_threshold :
    tagCountCompiles 9 = true ∧ tagCountCompiles 10 = true ∧
    tagCountCompiles 31 = true ∧ tagCountCompiles 32 = false := by decide

/-- Claim C10: `togglefloating` never makes a fixed client tiled: after
it, a fixed selected client is always floating, while a non-fixed
client's floating flag is inverted. -/
theorem togglefloating_fixed_stays_floating (c c2 : Client)
    (h : togglefloating (some c) = some c2) :
    (c.isfixed = true → c2.isfloating = true) ∧
    (c.isfixed = false → c2.isfloating = !c.isfloating) := by
  unfold togglefloating at h
  obtain rfl : { c with isfloating := !c.isfloating || c.isfixed } = c2 :=
    Option.some.inj h
  constructor
  · intro hf; simp [hf]
  · intro hf; simp [hf]

/-- Witness for C10: toggling the concrete fixed floating client leaves
it floating (and unchanged). -/
theorem togglefloating_fixed_stays_floating_witness :
    (cexFixedCl.isfixed = true → cexFixedCl.isfloating = true) ∧
    (cexFixedCl.isfixed = false → cexFixedCl.isfloating = !cexFixedCl.isfloating) :=
  togglefloating_fixed_stays_floating cexFixedCl cexFixedCl rfl

/-- Claim C4, counterexample: with current `mfact = 0.12` and argument
`-0.05`, the resulting factor `0.07` lies inside `[0.05, 0.95]`, yet
`setmfact` ignores the change (the source guard is `f < 0.1 || f > 0.9`),
so "any resulting factor inside [0.05, 0.95] is stored" is false. -/
theorem setmfact_inside_claimed_range_ignored :
    ((1/20 : ℚ) ≤ 7/100 ∧ (7/100 : ℚ) ≤ 19/20) ∧
    (if (-1/20 : ℚ) < 1 then -1/20 + 12/100 else -1/20 - 1) = (7/100 : ℚ) ∧
    setmfact (12/100) true (some (-1/20)) = (12/100, false) := by
  refine ⟨by norm_num, by norm_num, ?_⟩
  norm_num [setmfact]

/-- Claim C4, amended: the stored master-area fraction always stays in
[0.1, 0.9]: a change whose resulting factor falls outside that range is
silently ignored (state unchanged, no rearrange), and — when the current
layout has an arrange function — a resulting factor inside the range is
stored and the monitor rearranged. -/
theorem setmfact_bounds (mf a : ℚ) (la : Bool) (hmf : 1/10 ≤ mf ∧ mf ≤ 9/10) :
    (1/10 ≤ (setmfact mf la (some a)).1 ∧ (setmfact mf la (some a)).1 ≤ 9/10) ∧
    ((if a < 1 then a + mf else a - 1) < 1/10 ∨ 9/10 < (if a < 1 then a + mf else a - 1) →
      setmfact mf la (some a) = (mf, false)) ∧
    (la = true → 1/10 ≤ (if a < 1 then a + mf else a - 1) →
      (if a < 1 then a + mf else a - 1) ≤ 9/10 →
      setmfact mf la (some a) = ((if a < 1 then a + mf else a - 1), true)) := by
  cases la with
  | false =>
    refine ⟨⟨hmf.1, hmf.2⟩, fun _ => rfl, fun hla => by cases hla⟩
  | true =>
    by_cases hc : (if a < 1 then a + mf else a - 1) < 1/10 ∨
        9/10 < (if a < 1 then a + mf else a - 1)
    · have he : setmfact mf true (some a) = (mf, false) := by
        unfold setmfact
        simp only [Bool.not_true, Bool.false_eq_true, if_false, if_pos hc]
      rw [he]
      refine ⟨⟨hmf.1, hmf.2⟩, fun _ => rfl, ?_⟩
      intro _ h1 h2
      rcases hc with hc | hc <;> linarith
    · have he : setmfact mf true (some a) =
          ((if a < 1 then a + mf else a - 1), true) := by
        unfold setmfact
        simp only [Bool.not_true, Bool.false_eq_true, if_false, if_neg hc]
      rw [he]
      push_neg at hc
      refine ⟨⟨by linarith [hc.1], by linarith [hc.2]⟩, ?_, fun _ _ _ => rfl⟩
      intro hor
      rcases hor with h | h <;>
        [exact absurd h (not_lt.mpr hc.1); exact absurd h (not_lt.mpr hc.2)]

/-- Witness for C4 (amended): starting from the default `mfact = 0.55`,
the bound holds after a `+0.05` change. -/
theorem setmfact_bounds_witness :
    ((1:ℚ)/10 ≤ 11/20 ∧ (11/20 : ℚ) ≤ 9/10) ∧
    (1/10 ≤ (setmfact (11/20) true (some (1/20))).1 ∧
      (setmfact (11/20) true (some (1/20))).1 ≤ 9/10) :=
  ⟨by norm_num, (setmfact_bounds (11/20) (1/20) true (by norm_num)).1⟩

set_option maxRecDepth 100000 in
/-- Claim C5, code bug: with the root `WM_NAME` present, non-empty and
`STRING`-encoded ("hello"), `updatestatus` still stores the fallback
`"dwm-"VERSION`, because the braceless `if(!tp.name_len)` in
`gettextprop` makes `return false` unconditional; the brace-fixed variant
the indentation intends yields the property text. -/
theorem updatestatus_ignores_root_name :
    updatestatus (some ⟨5, true, "hello"⟩) = StatusText.fallbackVersion ∧
    updatestatusIntended (some ⟨5, true, "hello"⟩) = StatusText.fromRoot "hello" ∧
    StatusText.fallbackVersion ≠ StatusText.fromRoot "hello" := by
  refine ⟨rfl, ?_, by decide⟩
  show StatusText.fromRoot "hello" = StatusText.fromRoot "hello"
  rfl

/-- Claim C6, code bug: for a `WM_NORMAL_HINTS` reply with aspect limits
min 2/1, max 3/1, `updatesizehints` caches `mina =
min_aspect_num/min_aspect_den = 2`, not the claimed (and ICCCM-consistent)
`min_h/min_w = 1/2`; `maxa = max_w/max_h = 3` and the zeroing on an
absent aspect flag do match the claim. -/
theorem updatesizehints_min_aspect_not_inverted :
    (updatesizehints (some cexAspectHints) (plainCl 9)).mina = 2 ∧
    (updatesizehints (some cexAspectHints) (plainCl 9)).maxa = 3 ∧
    ((2 : ℚ) ≠ 1/2) ∧
    (updatesizehints (some cexNoAspectHints) (plainCl 9)).mina = 0 ∧
    (updatesizehints (some cexNoAspectHints) (plainCl 9)).maxa = 0 := by
  refine ⟨?_, ?_, by norm_num, rfl, rfl⟩ <;>
    norm_num [updatesizehints, cexAspectHints, plainCl]

/-! Helper lemmas for detachstack and applyrules. -/

lemma removeFirstWin_append (l1 l2 : List Client) (c : Client)
    (h : ∀ a ∈ l1, a.win ≠ c.win) :
    removeFirstWin (l1 ++ c :: l2) c.win = l1 ++ l2 := by
  induction l1 with
  | nil => simp [removeFirstWin]
  | cons a t ih =>
    simp only [List.cons_append, removeFirstWin]
    rw [if_neg (h a (by simp))]
    simp only [List.append_eq]
    rw [ih (fun b hb => h b (by simp [hb]))]

/-- Claim C9: for every focus stack and every client `c` on it (window
handles standing in for pointer identity), `detachstack` removes exactly
the first occurrence of `c` without reordering the other clients; if `c`
was the selected client, `sel` is reset to the topmost visible client of
the remaining stack, or to null when none is visible; otherwise `sel` is
untouched. -/
theorem detachstack_spec (fm : FocusMon) (c : Client) (l1 l2 : List Client)
    (hst : fm.stack = l1 ++ c :: l2) (hl1 : ∀ a ∈ l1, a.win ≠ c.win) :
    (detachstack fm c).stack = l1 ++ l2 ∧
    (∀ s, fm.sel = some s → s.win = c.win →
      (detachstack fm c).sel = (l1 ++ l2).find? (fun t => visC fm.curtags t)) ∧
    (∀ s, fm.sel = some s → s.win ≠ c.win → (detachstack fm c).sel = fm.sel) ∧
    (fm.sel = none → (detachstack fm c).sel = none) := by
  have hrm : removeFirstWin fm.stack c.win = l1 ++ l2 := by
    rw [hst]; exact removeFirstWin_append l1 l2 c hl1
  unfold detachstack
  refine ⟨by simp [hrm], ?_, ?_, ?_⟩
  · intro s hs hw
    simp [hs, hw, hrm]
  · intro s hs hw
    simp [hs, hw]
  · intro hs
    simp [hs]

/-- Witness for C9: detaching the selected middle client of a concrete
three-client stack keeps the outer two in order and re-selects the
topmost visible remaining client. -/
theorem detachstack_spec_witness :
    (detachstack ⟨[stkCl1, stkCl2, stkCl3], some stkCl2, 1⟩ stkCl2).stack
      = [stkCl1] ++ [stkCl3] ∧
    (∀ s, (⟨[stkCl1, stkCl2, stkCl3], some stkCl2, 1⟩ : FocusMon).sel = some s →
      s.win = stkCl2.win →
      (detachstack ⟨[stkCl1, stkCl2, stkCl3], some stkCl2, 1⟩ stkCl2).sel
        = ([stkCl1] ++ [stkCl3]).find? (fun t => visC 1 t)) ∧
    (∀ s, (⟨[stkCl1, stkCl2, stkCl3], some stkCl2, 1⟩ : FocusMon).sel = some s →
      s.win ≠ stkCl2.win →
      (detachstack ⟨[stkCl1, stkCl2, stkCl3], some stkCl2, 1⟩ stkCl2).sel
        = (⟨[stkCl1, stkCl2, stkCl3], some stkCl2, 1⟩ : FocusMon).sel) ∧
    ((⟨[stkCl1, stkCl2, stkCl3], some stkCl2, 1⟩ : FocusMon).sel = none →
      (detachstack ⟨[stkCl1, stkCl2, stkCl3], some stkCl2, 1⟩ stkCl2).sel = none) :=
  detachstack_spec ⟨[stkCl1, stkCl2, stkCl3], some stkCl2, 1⟩ stkCl2 [stkCl1] [stkCl3]
    rfl (by decide)

lemma foldl_or_shift (l : List ℕ) (a : ℕ) :
    l.foldl (· ||| ·) a = a ||| l.foldl (· ||| ·) 0 := by
  induction l generalizing a with
  | nil => simp
  | cons x t ih =>
    simp only [List.foldl]
    rw [ih (a ||| x), ih (0 ||| x), Nat.zero_or, Nat.or_assoc]

lemma applyrules_foldl (rules : List Rule) (mons : List RMon)
    (name cls inst : List ℕ) (acc : ℕ × Bool × RMon) :
    rules.foldl (applyrulesStep mons name cls inst) acc =
      (acc.1 ||| claimTags rules name cls inst,
       ((matchingRules rules name cls inst).map Rule.risfloating).getLastD acc.2.1,
       (matchingRules rules name cls inst).foldl
         (fun (mo : RMon) (r : Rule) =>
           ((mons.find? (fun (x : RMon) => x.num = r.rmonitor)).getD mo)) acc.2.2) := by
  induction rules generalizing acc with
  | nil => simp [claimTags, matchingRules]
  | cons r t ih =>
    by_cases hm : ruleMatches name cls inst r
    · have hstep : applyrulesStep mons name cls inst acc r =
          (acc.1 ||| r.rtags, r.risfloating,
           ((mons.find? (fun (x : RMon) => x.num = r.rmonitor)).getD acc.2.2)) := by
        unfold applyrulesStep; rw [if_pos hm]
      have hmr : matchingRules (r :: t) name cls inst
          = r :: matchingRules t name cls inst := by
        simp [matchingRules, hm]
      have hct : claimTags (r :: t) name cls inst
          = r.rtags ||| claimTags t name cls inst := by
        unfold claimTags
        rw [hmr]
        simp only [List.map_cons, List.foldl]
        rw [foldl_or_shift _ (0 ||| r.rtags), Nat.zero_or]
      simp only [List.foldl, hstep, ih, hct, hmr, List.map_cons, List.getLastD_cons]
      rw [Nat.or_assoc]
    · have hstep : applyrulesStep mons name cls inst acc r = acc := by
        unfold applyrulesStep; rw [if_neg hm]
      have hmr : matchingRules (r :: t) name cls inst
          = matchingRules t name cls inst := by
        simp [matchingRules, hm]
      have hct : claimTags (r :: t) name cls inst = claimTags t name cls inst := by
        unfold claimTags; rw [hmr]
      simp only [List.foldl, hstep, ih, hct, hmr]

lemma claimMon_mem (rules : List Rule) (mons : List RMon)
    (name cls inst : List ℕ) (mon0 : RMon) :
    claimMon rules mons name cls inst mon0 = mon0 ∨
      claimMon rules mons name cls inst mon0 ∈ mons := by
  unfold claimMon
  generalize matchingRules rules name cls inst = l
  induction l generalizing mon0 with
  | nil => left; rfl
  | cons r t ih =>
    simp only [List.foldl]
    cases hfind : mons.find? (fun (x : RMon) => x.num = r.rmonitor) with
    | none =>
      simpa [hfind] using ih mon0
    | some mo =>
      simp only [hfind, Option.getD_some]
      rcases ih mo with h | h
      · right; rw [h]; exact List.mem_of_find?_eq_some hfind
      · right; exact h

/-- Claim C3: with the `WM_CLASS` reply present, `applyrules` ORs the tag
masks of all matching rules (each later matching rule overwriting
`isfloating`, and overwriting `mon` whenever its monitor index resolves
to an existing monitor); if the accumulated mask intersected with
`TAGMASK` is zero, the client's tags become its monitor's current tagset,
so — monitors' tagsets being nonzero, as every reachable monitor's are —
the resulting tag mask is nonzero. -/
theorem applyrules_spec (rules : List Rule) (mons : List RMon)
    (name cls inst : List ℕ) (mon0 : RMon)
    (hmons : ∀ mo ∈ mons, mo.curtags ≠ 0) (h0 : mon0.curtags ≠ 0) :
    (applyrules rules mons name (some (cls, inst)) mon0 =
      ((if claimTags rules name cls inst &&& TAGMASK ≠ 0
        then claimTags rules name cls inst &&& TAGMASK
        else (claimMon rules mons name cls inst mon0).curtags),
       claimFloat rules name cls inst,
       claimMon rules mons name cls inst mon0)) ∧
    (applyrules rules mons name (some (cls, inst)) mon0).1 ≠ 0 := by
  have hf : rules.foldl (applyrulesStep mons name cls inst) (0, false, mon0) =
      (0 ||| claimTags rules name cls inst,
       ((matchingRules rules name cls inst).map Rule.risfloating).getLastD false,
       (matchingRules rules name cls inst).foldl
         (fun (mo : RMon) (r : Rule) =>
           ((mons.find? (fun (x : RMon) => x.num = r.rmonitor)).getD mo)) mon0) :=
    applyrules_foldl rules mons name cls inst (0, false, mon0)
  have he : applyrules rules mons name (some (cls, inst)) mon0 =
      ((if claimTags rules name cls inst &&& TAGMASK ≠ 0
        then claimTags rules name cls inst &&& TAGMASK
        else (claimMon rules mons name cls inst mon0).curtags),
       claimFloat rules name cls inst,
       claimMon rules mons name cls inst mon0) := by
    simp only [applyrules, hf, Nat.zero_or, claimFloat, claimMon]
  refine ⟨he, ?_⟩
  rw [he]
  by_cases hU : claimTags rules name cls inst &&& TAGMASK ≠ 0
  · simp only [if_pos hU]; exact hU
  · simp only [hU, if_neg, if_false]
    rcases claimMon_mem rules mons name cls inst mon0 with h | h
    · rw [h]; simpa using h0
    · simpa using hmons _ h

/-- Witness for C3: the two concrete rules against class [10,11,12] (both
match, the second resolving monitor 0). -/
theorem applyrules_spec_witness :
    (applyrules [cexRule1, cexRule2] cexRMons [] (some ([10,11,12], [])) ⟨9, 8⟩ =
      ((if claimTags [cexRule1, cexRule2] [] [10,11,12] [] &&& TAGMASK ≠ 0
        then claimTags [cexRule1, cexRule2] [] [10,11,12] [] &&& TAGMASK
        else (claimMon [cexRule1, cexRule2] cexRMons [] [10,11,12] [] ⟨9, 8⟩).curtags),
       claimFloat [cexRule1, cexRule2] [] [10,11,12] [],
       claimMon [cexRule1, cexRule2] cexRMons [] [10,11,12] [] ⟨9, 8⟩)) ∧
    (applyrules [cexRule1, cexRule2] cexRMons [] (some ([10,11,12], [])) ⟨9, 8⟩).1 ≠ 0 :=
  applyrules_spec [cexRule1, cexRule2] cexRMons [] [10,11,12] [] ⟨9, 8⟩
    (by decide) (by decide)

/-! Helper lemmas for the geometry pipeline of applysizehints. -/

lemma u16_eq_self (n : ℤ) (h1 : 0 ≤ n) (h2 : n ≤ 65535) : u16 n = n := by
  unfold u16; omega

lemma i16_eq_self (n : ℤ) (h1 : -32768 ≤ n) (h2 : n ≤ 32767) : i16 n = n := by
  unfold i16; omega

set_option maxHeartbeats 1000000 in
lemma pipeDim_idem (bh base mn mx v : ℤ) (h1 : 0 ≤ bh) (h2 : bh ≤ 65535) :
    pipeDim bh base mn mx (pipeDim bh base mn mx v) = pipeDim bh base mn mx v := by
  simp only [pipeDim, clampDim, pipeFloor, u16]
  split_ifs <;> omega

lemma pipeFloor_idem (bh v : ℤ) (h1 : 0 ≤ bh) (h2 : bh ≤ 65535) :
    pipeFloor bh (pipeFloor bh v) = pipeFloor bh v := by
  simp only [pipeFloor, u16]
  split_ifs <;> omega

lemma pipeDim_bounds (bh base mn mx v : ℤ) :
    0 ≤ pipeDim bh base mn mx v ∧ pipeDim bh base mn mx v ≤ 65535 := by
  simp only [pipeDim, clampDim, pipeFloor, u16]
  split_ifs <;> omega

lemma pipeFloor_bounds (bh v : ℤ) :
    0 ≤ pipeFloor bh v ∧ pipeFloor bh v ≤ 65535 := by
  simp only [pipeFloor, u16]
  split_ifs <;> omega

lemma applyhintsWH_noaspect (c : Client) (hasp : ¬(0 < c.mina ∧ 0 < c.maxa))
    (hiw : c.incw = 0) (hih : c.inch = 0) (w h : ℤ) :
    applyhintsWH c w h =
      (clampDim c.basew c.minw c.maxw w, clampDim c.baseh c.minh c.maxh h) := by
  by_cases hbm : c.basew = c.minw ∧ c.baseh = c.minh
  · simp [applyhintsWH, clampDim, hasp, hiw, hih, hbm]
  · simp [applyhintsWH, clampDim, hasp, hiw, hih, hbm]

lemma applysizehints_wh (p : Params) (m : MonGeom) (c : Client)
    (x0 y0 w0 h0 : ℤ) (it : Bool)
    (hasp : ¬(0 < c.mina ∧ 0 < c.maxa)) (hiw : c.incw = 0) (hih : c.inch = 0) :
    (applysizehints p m c x0 y0 w0 h0 it).1.w =
      (if (p.resizehints || c.isfloating) = true
       then pipeDim p.bh c.basew c.minw c.maxw w0 else pipeFloor p.bh w0) ∧
    (applysizehints p m c x0 y0 w0 h0 it).1.h =
      (if (p.resizehints || c.isfloating) = true
       then pipeDim p.bh c.baseh c.minh c.maxh h0 else pipeFloor p.bh h0) := by
  by_cases hrf : (p.resizehints || c.isfloating) = true
  · simp only [applysizehints, hrf, if_true, applyhintsWH_noaspect c hasp hiw hih]
    exact ⟨rfl, rfl⟩
  · simp only [applysizehints, hrf, if_false, Bool.not_eq_true]
    constructor <;> rfl

lemma applysizehints_x_eval (p : Params) (m : MonGeom) (c : Client)
    (x0 y0 w0 h0 : ℤ) (it : Bool)
    (hx0 : -32768 ≤ x0 ∧ x0 ≤ 32767)
    (hg1 : it = true → x0 ≤ p.sw ∧ 0 ≤ x0 + u16 (max 1 (u16 w0)) + 2 * c.bw)
    (hg2 : it = false → x0 ≤ m.mx + m.mw ∧
      m.mx ≤ x0 + u16 (max 1 (u16 w0)) + 2 * c.bw) :
    (applysizehints p m c x0 y0 w0 h0 it).1.x = x0 := by
  cases it with
  | true =>
    obtain ⟨ha, hb⟩ := hg1 rfl
    simp only [applysizehints, i16_eq_self x0 hx0.1 hx0.2, if_true]
    rw [if_neg (not_lt.mpr ha), if_neg (not_lt.mpr hb)]
  | false =>
    obtain ⟨ha, hb⟩ := hg2 rfl
    simp only [applysizehints, i16_eq_self x0 hx0.1 hx0.2, Bool.false_eq_true, if_false]
    rw [if_neg (not_lt.mpr ha), if_neg (not_lt.mpr hb)]

lemma applysizehints_y_eval (p : Params) (m : MonGeom) (c : Client)
    (x0 y0 w0 h0 : ℤ) (it : Bool)
    (hy0 : -32768 ≤ y0 ∧ y0 ≤ 32767)
    (hg1 : it = true → y0 ≤ p.sh ∧ 0 ≤ y0 + u16 (max 1 (u16 h0)) + 2 * c.bw)
    (hg2 : it = false → y0 ≤ m.my + m.mh ∧
      m.my ≤ y0 + u16 (max 1 (u16 h0)) + 2 * c.bw) :
    (applysizehints p m c x0 y0 w0 h0 it).1.y = y0 := by
  cases it with
  | true =>
    obtain ⟨ha, hb⟩ := hg1 rfl
    simp only [applysizehints, i16_eq_self y0 hy0.1 hy0.2, if_true]
    rw [if_neg (not_lt.mpr ha), if_neg (not_lt.mpr hb)]
  | false =>
    obtain ⟨ha, hb⟩ := hg2 rfl
    simp only [applysizehints, i16_eq_self y0 hy0.1 hy0.2, Bool.false_eq_true, if_false]
    rw [if_neg (not_lt.mpr ha), if_neg (not_lt.mpr hb)]

lemma applysizehints_x_range (p : Params) (m : MonGeom) (c : Client)
    (x0 y0 w0 h0 : ℤ) (it : Bool) :
    -32768 ≤ (applysizehints p m c x0 y0 w0 h0 it).1.x ∧
      (applysizehints p m c x0 y0 w0 h0 it).1.x ≤ 32767 := by
  simp only [applysizehints, i16, u16]
  split_ifs <;> omega

lemma applysizehints_y_range (p : Params) (m : MonGeom) (c : Client)
    (x0 y0 w0 h0 : ℤ) (it : Bool) :
    -32768 ≤ (applysizehints p m c x0 y0 w0 h0 it).1.y ∧
      (applysizehints p m c x0 y0 w0 h0 it).1.y ≤ 32767 := by
  simp only [applysizehints, i16, u16]
  split_ifs <;> omega

lemma applysizehints_flag (p : Params) (m : MonGeom) (c : Client)
    (x0 y0 w0 h0 : ℤ) (it : Bool) :
    (applysizehints p m c x0 y0 w0 h0 it).2 =
      decide ((applysizehints p m c x0 y0 w0 h0 it).1.x ≠ c.x ∨
        (applysizehints p m c x0 y0 w0 h0 it).1.y ≠ c.y ∨
        (applysizehints p m c x0 y0 w0 h0 it).1.w ≠ c.w ∨
        (applysizehints p m c x0 y0 w0 h0 it).1.h ≠ c.h) := rfl

/-- Claim C1, amended: for a client whose size hints specify no aspect
limits in force and no resize increments, if the stored geometry equals
the output of a first call and that output does not re-trigger the
on-screen repositioning guards, the second call returns unchanged
(false) and leaves the tuple unmodified.  (With increments, with aspect
limits, or when hint clamping pulled the window back across a guard, the
second call may modify the tuple: see the counterexample.) -/
theorem applysizehints_idem_amended (p : Params) (m : MonGeom) (c : Client)
    (x0 y0 w0 h0 : ℤ) (it : Bool) (g : Geom) (fl : Bool)
    (hasp : ¬(0 < c.mina ∧ 0 < c.maxa)) (hiw : c.incw = 0) (hih : c.inch = 0)
    (hbh1 : 0 ≤ p.bh) (hbh2 : p.bh ≤ 65535)
    (hfirst : applysizehints p m c x0 y0 w0 h0 it = (g, fl))
    (hg1 : it = true → g.x ≤ p.sw ∧ g.y ≤ p.sh ∧
      0 ≤ g.x + max 1 g.w + 2 * c.bw ∧ 0 ≤ g.y + max 1 g.h + 2 * c.bw)
    (hg2 : it = false → g.x ≤ m.mx + m.mw ∧ g.y ≤ m.my + m.mh ∧
      m.mx ≤ g.x + max 1 g.w + 2 * c.bw ∧ m.my ≤ g.y + max 1 g.h + 2 * c.bw) :
    applysizehints p m (setGeom c g) g.x g.y g.w g.h it = (g, false) := by
  have hwh := applysizehints_wh p m c x0 y0 w0 h0 it hasp hiw hih
  have hgw : g.w = (if (p.resizehints || c.isfloating) = true
      then pipeDim p.bh c.basew c.minw c.maxw w0 else pipeFloor p.bh w0) := by
    rw [← hwh.1, hfirst]
  have hgh : g.h = (if (p.resizehints || c.isfloating) = true
      then pipeDim p.bh c.baseh c.minh c.maxh h0 else pipeFloor p.bh h0) := by
    rw [← hwh.2, hfirst]
  have hgwB : 0 ≤ g.w ∧ g.w ≤ 65535 := by
    rw [hgw]; split_ifs
    · exact pipeDim_bounds p.bh c.basew c.minw c.maxw w0
    · exact pipeFloor_bounds p.bh w0
  have hghB : 0 ≤ g.h ∧ g.h ≤ 65535 := by
    rw [hgh]; split_ifs
    · exact pipeDim_bounds p.bh c.baseh c.minh c.maxh h0
    · exact pipeFloor_bounds p.bh h0
  have hgxB : -32768 ≤ g.x ∧ g.x ≤ 32767 := by
    have := applysizehints_x_range p m c x0 y0 w0 h0 it
    rwa [hfirst] at this
  have hgyB : -32768 ≤ g.y ∧ g.y ≤ 32767 := by
    have := applysizehints_y_range p m c x0 y0 w0 h0 it
    rwa [hfirst] at this
  have hu16w : u16 (max 1 (u16 g.w)) = max 1 g.w := by
    rw [u16_eq_self g.w hgwB.1 hgwB.2]
    exact u16_eq_self _ (by omega) (by omega)
  have hu16h : u16 (max 1 (u16 g.h)) = max 1 g.h := by
    rw [u16_eq_self g.h hghB.1 hghB.2]
    exact u16_eq_self _ (by omega) (by omega)
  set c2 := setGeom c g with hc2
  have hc2f : c2.mina = c.mina ∧ c2.maxa = c.maxa ∧ c2.incw = c.incw ∧
      c2.inch = c.inch ∧ c2.bw = c.bw ∧ c2.basew = c.basew ∧ c2.minw = c.minw ∧
      c2.maxw = c.maxw ∧ c2.baseh = c.baseh ∧ c2.minh = c.minh ∧
      c2.maxh = c.maxh ∧ c2.isfloating = c.isfloating ∧
      c2.x = g.x ∧ c2.y = g.y ∧ c2.w = g.w ∧ c2.h = g.h := by
    simp [hc2, setGeom]
  have hasp2 : ¬(0 < c2.mina ∧ 0 < c2.maxa) := by
    rw [hc2f.1, hc2f.2.1]; exact hasp
  have hx2 : (applysizehints p m c2 g.x g.y g.w g.h it).1.x = g.x := by
    apply applysizehints_x_eval p m c2 g.x g.y g.w g.h it hgxB
    · intro hit
      obtain ⟨a1, _, a3, _⟩ := hg1 hit
      rw [hu16w, hc2f.2.2.2.2.1]
      exact ⟨a1, a3⟩
    · intro hit
      obtain ⟨a1, _, a3, _⟩ := hg2 hit
      rw [hu16w, hc2f.2.2.2.2.1]
      exact ⟨a1, a3⟩
  have hy2 : (applysizehints p m c2 g.x g.y g.w g.h it).1.y = g.y := by
    apply applysizehints_y_eval p m c2 g.x g.y g.w g.h it hgyB
    · intro hit
      obtain ⟨_, a2, _, a4⟩ := hg1 hit
      rw [hu16h, hc2f.2.2.2.2.1]
      exact ⟨a2, a4⟩
    · intro hit
      obtain ⟨_, a2, _, a4⟩ := hg2 hit
      rw [hu16h, hc2f.2.2.2.2.1]
      exact ⟨a2, a4⟩
  have hwh2 := applysizehints_wh p m c2 g.x g.y g.w g.h it hasp2
    (by rw [hc2f.2.2.1]; exact hiw) (by rw [hc2f.2.2.2.1]; exact hih)
  have hrfeq : (p.resizehints || c2.isfloating) = (p.resizehints || c.isfloating) := by
    rw [hc2f.2.2.2.2.2.2.2.2.2.2.2.1]
  have hw2 : (applysizehints p m c2 g.x g.y g.w g.h it).1.w = g.w := by
    rw [hwh2.1]
    rw [hc2f.2.2.2.2.2.2.1, hc2f.2.2.2.2.2.2.2.1, hc2f.2.2.2.2.2.1, hrfeq]
    by_cases hrf : (p.resizehints || c.isfloating) = true
    · rw [if_pos hrf]
      rw [hgw, if_pos hrf]
      exact pipeDim_idem p.bh c.basew c.minw c.maxw w0 hbh1 hbh2
    · rw [if_neg hrf]
      rw [hgw, if_neg hrf]
      exact pipeFloor_idem p.bh w0 hbh1 hbh2
  have hh2 : (applysizehints p m c2 g.x g.y g.w g.h it).1.h = g.h := by
    rw [hwh2.2]
    rw [hc2f.2.2.2.2.2.2.2.2.1, hc2f.2.2.2.2.2.2.2.2.2.1,
      hc2f.2.2.2.2.2.2.2.2.2.2.1, hrfeq]
    by_cases hrf : (p.resizehints || c.isfloating) = true
    · rw [if_pos hrf]
      rw [hgh, if_pos hrf]
      exact pipeDim_idem p.bh c.baseh c.minh c.maxh h0 hbh1 hbh2
    · rw [if_neg hrf]
      rw [hgh, if_neg hrf]
      exact pipeFloor_idem p.bh h0 hbh1 hbh2
  have hfl2 : (applysizehints p m c2 g.x g.y g.w g.h it).2 = false := by
    rw [applysizehints_flag, hx2, hy2, hw2, hh2]
    simp [hc2f.2.2.2.2.2.2.2.2.2.2.2.2.1, hc2f.2.2.2.2.2.2.2.2.2.2.2.2.2.1,
      hc2f.2.2.2.2.2.2.2.2.2.2.2.2.2.2.1, hc2f.2.2.2.2.2.2.2.2.2.2.2.2.2.2.2]
  have hr1 : (applysizehints p m c2 g.x g.y g.w g.h it).1 = g := by
    cases hq : (applysizehints p m c2 g.x g.y g.w g.h it).1 with
    | mk a b cc d =>
      rw [hq] at hx2 hy2 hw2 hh2
      cases g with
      | mk e f gg hhh =>
        simp only [Geom.mk.injEq]
        exact ⟨hx2, hy2, hw2, hh2⟩
  calc applysizehints p m c2 g.x g.y g.w g.h it
      = ((applysizehints p m c2 g.x g.y g.w g.h it).1,
         (applysizehints p m c2 g.x g.y g.w g.h it).2) := rfl
    _ = (g, false) := by rw [hr1, hfl2]

/-- Witness for C1 (amended): a hint-free client at (0,0,100,50): the
first call is the identity on the proposal and the second call reports
unchanged. -/
theorem applysizehints_idem_amended_witness :
    (¬(0 < idemCl.mina ∧ 0 < idemCl.maxa)) ∧
    applysizehints cexPar cexMon (setGeom idemCl ⟨0, 0, 100, 50⟩) 0 0 100 50 false
      = (⟨0, 0, 100, 50⟩, false) :=
  ⟨by decide,
   applysizehints_idem_amended cexPar cexMon idemCl 0 0 100 50 false
     ⟨0, 0, 100, 50⟩ false (by decide) rfl rfl (by decide) (by decide)
     (by decide) (fun h => nomatch h) (fun _ => by decide)⟩

/-- Claim C1, counterexample: `applysizehints` is not idempotent.  Three
second calls whose input tuple and stored geometry both equal the output
of a first call, each returning changed: (a) a width increment of 3 with
maximum width 4 (the max clamp breaks the increment rounding: 4 becomes
3); (b) a maximum size of 10x10 with a first proposal at x = -50 of
width 100 (hint clamping shrank the width after the on-screen guards
ran, so the second call moves x to 0); (c) aspect limits 0.5..1.5 on a
100x10 proposal (width is clamped to 15 first, then the second call
clamps the height to 8). -/
theorem applysizehints_not_idempotent :
    ((applysizehints cexPar cexMon cexIncCl 0 0 10 10 false).1 = ⟨0, 0, 4, 10⟩ ∧
     (cexIncCl.x, cexIncCl.y, cexIncCl.w, cexIncCl.h) = (0, 0, 4, 10) ∧
     applysizehints cexPar cexMon cexIncCl 0 0 4 10 false = (⟨0, 0, 3, 10⟩, true)) ∧
    ((applysizehints cexPar cexMon cexMaxCl (-50) 0 100 100 false).1 = ⟨-50, 0, 10, 10⟩ ∧
     (cexMaxCl.x, cexMaxCl.y, cexMaxCl.w, cexMaxCl.h) = (-50, 0, 10, 10) ∧
     applysizehints cexPar cexMon cexMaxCl (-50) 0 10 10 false = (⟨0, 0, 10, 10⟩, true)) ∧
    ((applysizehints cexPar cexMon cexAspCl 0 0 100 10 false).1 = ⟨0, 0, 15, 10⟩ ∧
     (cexAspCl.x, cexAspCl.y, cexAspCl.w, cexAspCl.h) = (0, 0, 15, 10) ∧
     applysizehints cexPar cexMon cexAspCl 0 0 15 10 false = (⟨0, 0, 15, 8⟩, true)) := by
  refine ⟨⟨by decide, by decide, by decide⟩, ⟨by decide, by decide, by decide⟩,
    ⟨?_, by decide, ?_⟩⟩
  · simp only [applysizehints, applyhintsWH, cexPar, cexMon, cexAspCl, fdivF, lroundQ,
      qfloor, u16, i16]
    norm_num
  · simp only [applysizehints, applyhintsWH, cexPar, cexMon, cexAspCl, fdivF, lroundQ,
      qfloor, u16, i16]
    norm_num

lemma setGeom_self (c : Client) (g : Geom) (h1 : c.x = g.x) (h2 : c.y = g.y)
    (h3 : c.w = g.w) (h4 : c.h = g.h) : setGeom c g = c := by
  cases c
  cases g
  simp_all [setGeom]

lemma applysizehints_id (p : Params) (m : MonGeom) (c : Client) (x y w h : ℤ)
    (hrh : p.resizehints = false) (hfl : c.isfloating = false)
    (hx : -32768 ≤ x ∧ x ≤ 32767) (hy : -32768 ≤ y ∧ y ≤ 32767)
    (hw : max 1 p.bh ≤ w ∧ w ≤ 65535) (hh : max 1 p.bh ≤ h ∧ h ≤ 65535)
    (hgx : x ≤ m.mx + m.mw ∧ m.mx ≤ x + w + 2 * c.bw)
    (hgy : y ≤ m.my + m.mh ∧ m.my ≤ y + h + 2 * c.bw) :
    (applysizehints p m c x y w h false).1 = ⟨x, y, w, h⟩ := by
  have h1w : (1 : ℤ) ≤ w := le_trans (le_max_left 1 p.bh) hw.1
  have h1h : (1 : ℤ) ≤ h := le_trans (le_max_left 1 p.bh) hh.1
  have hbw : p.bh ≤ w := le_trans (le_max_right 1 p.bh) hw.1
  have hbhh : p.bh ≤ h := le_trans (le_max_right 1 p.bh) hh.1
  have hw1 : u16 (max 1 (u16 w)) = w := by
    rw [u16_eq_self w (by omega) hw.2, max_eq_right h1w, u16_eq_self w (by omega) hw.2]
  have hh1 : u16 (max 1 (u16 h)) = h := by
    rw [u16_eq_self h (by omega) hh.2, max_eq_right h1h, u16_eq_self h (by omega) hh.2]
  simp only [applysizehints, hrh, hfl, i16_eq_self x hx.1 hx.2, i16_eq_self y hy.1 hy.2,
    hw1, hh1, Bool.false_eq_true, if_false, Bool.or_self]
  rw [if_neg (not_lt.mpr hgx.1), if_neg (not_lt.mpr hgy.1),
    if_neg (not_lt.mpr hgx.2), if_neg (not_lt.mpr hgy.2),
    if_neg (not_lt.mpr hbhh), if_neg (not_lt.mpr hbw)]

lemma resize_of_id (p : Params) (m : MonGeom) (c : Client) (x y w h : ℤ) (it : Bool)
    (hid : (applysizehints p m c x y w h it).1 = ⟨x, y, w, h⟩) :
    resize p m c x y w h it = setGeom c ⟨x, y, w, h⟩ := by
  have hfg := applysizehints_flag p m c x y w h it
  rw [hid] at hfg
  cases hb : (applysizehints p m c x y w h it).2 with
  | true => simp only [resize, hb, if_true, hid]
  | false =>
    rw [hb] at hfg
    have hne := of_decide_eq_false hfg.symm
    push_neg at hne
    simp only [resize, hb, Bool.false_eq_true, if_false]
    exact (setGeom_self c ⟨x, y, w, h⟩ hne.1.symm hne.2.1.symm hne.2.2.1.symm
      hne.2.2.2.symm).symm

lemma sumArea_cons (m : MonGeom) (c : Client) (l : List Client) :
    sumArea m (c :: l) =
      (if nexttiledPred m c = true then clientArea c else 0) + sumArea m l := by
  by_cases h : nexttiledPred m c = true <;>
    simp [sumArea, List.filter_cons, h]

lemma sumArea_zero (m : MonGeom) (l : List Client)
    (h : (l.filter (nexttiledPred m)).length = 0) : sumArea m l = 0 := by
  unfold sumArea
  rw [List.length_eq_zero] at h
  rw [h]
  rfl

lemma resize_fields (p : Params) (m : MonGeom) (c : Client) (x y w h : ℤ) (it : Bool) :
    (resize p m c x y w h it).tags = c.tags ∧
    (resize p m c x y w h it).isfloating = c.isfloating ∧
    (resize p m c x y w h it).bw = c.bw := by
  by_cases hb : (applysizehints p m c x y w h it).2 = true <;>
    simp [resize, hb, setGeom]

lemma pred_resize (p : Params) (m m2 : MonGeom) (c : Client) (x y w h : ℤ) (it : Bool) :
    nexttiledPred m2 (resize p m c x y w h it) = nexttiledPred m2 c := by
  have hf := resize_fields p m c x y w h it
  unfold nexttiledPred isvisible
  rw [hf.1, hf.2.1]

lemma tileStack_of_no_tiled (p : Params) (m : MonGeom) (w h : ℤ) (s : ℕ) :
    ∀ (l : List Client) (x y : ℤ) (i : ℕ),
      (l.filter (nexttiledPred m)).length = 0 → tileStack p m x y w h s i l = l := by
  intro l
  induction l with
  | nil => intro x y i _; rfl
  | cons c rest ih =>
    intro x y i hlen
    by_cases hp : nexttiledPred m c = true
    · simp [List.filter_cons, hp] at hlen
    · simp only [tileStack, hp, Bool.false_eq_true, if_false]
      rw [ih x y i (by simpa [List.filter_cons, hp] using hlen)]

lemma tileStack_area (p : Params) (m : MonGeom) (x w h : ℤ) (s : ℕ)
    (hrh : p.resizehints = false)
    (hxr1 : -32768 ≤ x) (hxr2 : x ≤ 32767)
    (hgx1 : x ≤ m.mx + m.mw) (hgx2 : m.mx ≤ x)
    (hw0 : 0 ≤ w) (hw65 : w ≤ 65535)
    (hmy1 : m.my ≤ m.wy) (hmy2 : m.wy + m.wh ≤ m.my + m.mh)
    (hwy1 : 0 ≤ m.wy) (hwy2 : m.wy + m.wh ≤ 32767)
    (hsh : (s : ℤ) * h ≤ m.wh) :
    ∀ (l : List Client) (i : ℕ),
      i + (l.filter (nexttiledPred m)).length = s →
      1 ≤ (l.filter (nexttiledPred m)).length →
      (∀ c ∈ l, nexttiledPred m c = true →
        0 ≤ c.bw ∧ 2 * c.bw + max 1 p.bh ≤ w ∧ 2 * c.bw + max 1 p.bh ≤ h) →
      sumArea m (tileStack p m x (m.wy + (i : ℤ) * h) w h s i l)
        = w * (m.wh - (i : ℤ) * h) := by
  intro l
  induction l with
  | nil =>
    intro i hk h1 _
    simp at h1
  | cons c rest ih =>
    intro i hk h1 hcl
    by_cases hp : nexttiledPred m c = true
    case neg =>
      have hfl : ((c :: rest).filter (nexttiledPred m))
          = rest.filter (nexttiledPred m) := by
        simp [List.filter_cons, hp]
      rw [hfl] at hk h1
      simp only [tileStack, hp, Bool.false_eq_true, if_false]
      rw [sumArea_cons]
      simp only [hp, Bool.false_eq_true, if_false, zero_add]
      exact ih i hk h1 (fun d hd hpd => hcl d (List.mem_cons_of_mem c hd) hpd)
    case pos =>
      have hfl : ((c :: rest).filter (nexttiledPred m))
          = c :: rest.filter (nexttiledPred m) := by
        simp [List.filter_cons, hp]
      rw [hfl] at hk h1
      simp only [List.length_cons] at hk
      obtain ⟨hbw0, hbww, hbwh⟩ := hcl c (List.mem_cons_self c rest) hp
      have h1max : (1 : ℤ) ≤ max 1 p.bh := le_max_left 1 p.bh
      have hh1 : (1 : ℤ) ≤ h := by omega
      have hile : (i : ℤ) + 1 ≤ (s : ℤ) := by omega
      have hihnn : 0 ≤ (i : ℤ) * h := mul_nonneg (Int.ofNat_nonneg i) (by omega)
      have hih1 : (i : ℤ) * h + h ≤ (s : ℤ) * h := by nlinarith
      have hyr1 : 0 ≤ m.wy + (i : ℤ) * h := by omega
      have hyr2 : m.wy + (i : ℤ) * h + h ≤ 32767 := by omega
      have hmaxbh : max 1 p.bh ≤ max 1 p.bh := le_refl _
      simp only [tileStack, hp, if_true, if_pos]
      by_cases hlast : i + 1 = s
      case pos =>
        have hrest0 : (rest.filter (nexttiledPred m)).length = 0 := by omega
        have hgt : m.wy + m.wh - (m.wy + (i : ℤ) * h) - 2 * c.bw
            = m.wh - (i : ℤ) * h - 2 * c.bw := by ring
        have hlasti : (i : ℤ) * h + h ≤ m.wh := by
          have : ((i : ℤ) + 1) * h ≤ (s : ℤ) * h := by
            have : ((i : ℤ) + 1) = (s : ℤ) := by exact_mod_cast hlast
            rw [this]
          nlinarith
        have hres : resize p m c x (m.wy + (i : ℤ) * h) (w - 2 * c.bw)
            (m.wy + m.wh - (m.wy + (i : ℤ) * h) - 2 * c.bw) false
            = setGeom c ⟨x, m.wy + (i : ℤ) * h, w - 2 * c.bw,
                m.wy + m.wh - (m.wy + (i : ℤ) * h) - 2 * c.bw⟩ := by
          apply resize_of_id
          apply applysizehints_id p m c _ _ _ _ hrh
            (Bool.eq_false_iff.mpr (fun hf => by simp [nexttiledPred, hf] at hp))
          · exact ⟨hxr1, hxr2⟩
          · constructor <;> omega
          · constructor <;> omega
          · constructor <;> omega
          · constructor <;> omega
          · constructor <;> omega
        rw [if_pos hlast, hres]
        rw [sumArea_cons]
        have hpred2 : nexttiledPred m (setGeom c ⟨x, m.wy + (i : ℤ) * h, w - 2 * c.bw,
            m.wy + m.wh - (m.wy + (i : ℤ) * h) - 2 * c.bw⟩) = true := by
          simpa [nexttiledPred, isvisible, setGeom] using hp
        rw [if_pos hpred2]
        have hrest : tileStack p m x
            (if h ≠ m.wh then
              i16 ((setGeom c ⟨x, m.wy + (i : ℤ) * h, w - 2 * c.bw,
                m.wy + m.wh - (m.wy + (i : ℤ) * h) - 2 * c.bw⟩).y +
                ((setGeom c ⟨x, m.wy + (i : ℤ) * h, w - 2 * c.bw,
                  m.wy + m.wh - (m.wy + (i : ℤ) * h) - 2 * c.bw⟩).h +
                 2 * (setGeom c ⟨x, m.wy + (i : ℤ) * h, w - 2 * c.bw,
                   m.wy + m.wh - (m.wy + (i : ℤ) * h) - 2 * c.bw⟩).bw))
             else m.wy + (i : ℤ) * h)
            w h s (i + 1) rest = rest :=
          tileStack_of_no_tiled p m w h s rest _ _ (i + 1) hrest0
        rw [hrest, sumArea_zero m rest hrest0]
        simp only [clientArea, setGeom]
        ring
      case neg =>
        have hrest1 : 1 ≤ (rest.filter (nexttiledPred m)).length := by omega
        have hs2 : i + 1 + (rest.filter (nexttiledPred m)).length = s := by omega
        have hne : h ≠ m.wh := by
          intro he
          have hs2' : (2 : ℤ) ≤ (s : ℤ) := by
            have : i + 2 ≤ s := by omega
            exact_mod_cast le_trans (by omega) this
          nlinarith
        have hres : resize p m c x (m.wy + (i : ℤ) * h) (w - 2 * c.bw)
            (h - 2 * c.bw) false
            = setGeom c ⟨x, m.wy + (i : ℤ) * h, w - 2 * c.bw, h - 2 * c.bw⟩ := by
          apply resize_of_id
          apply applysizehints_id p m c _ _ _ _ hrh
            (Bool.eq_false_iff.mpr (fun hf => by simp [nexttiledPred, hf] at hp))
          · exact ⟨hxr1, hxr2⟩
          · constructor <;> omega
          · constructor <;> omega
          · constructor <;> omega
          · constructor <;> omega
          · constructor <;> omega
        rw [if_neg hlast, hres]
        rw [sumArea_cons]
        have hpred2 : nexttiledPred m (setGeom c
            ⟨x, m.wy + (i : ℤ) * h, w - 2 * c.bw, h - 2 * c.bw⟩) = true := by
          simpa [nexttiledPred, isvisible, setGeom] using hp
        rw [if_pos hpred2]
        have hexp : ((i : ℤ) + 1) * h = (i : ℤ) * h + h := by ring
        have hy2 : (if h ≠ m.wh then
            i16 ((setGeom c ⟨x, m.wy + (i : ℤ) * h, w - 2 * c.bw, h - 2 * c.bw⟩).y +
              ((setGeom c ⟨x, m.wy + (i : ℤ) * h, w - 2 * c.bw, h - 2 * c.bw⟩).h +
               2 * (setGeom c ⟨x, m.wy + (i : ℤ) * h, w - 2 * c.bw, h - 2 * c.bw⟩).bw))
           else m.wy + (i : ℤ) * h) = m.wy + ((i : ℤ) + 1) * h := by
          rw [if_pos hne]
          simp only [setGeom]
          rw [show m.wy + (i : ℤ) * h + (h - 2 * c.bw + 2 * c.bw)
              = m.wy + ((i : ℤ) + 1) * h by ring]
          exact i16_eq_self _ (by omega) (by omega)
        rw [hy2]
        have hcast : ((i + 1 : ℕ) : ℤ) = (i : ℤ) + 1 := by push_cast; ring
        have hih2 := ih (i + 1) hs2 hrest1
          (fun d hd hpd => hcl d (List.mem_cons_of_mem c hd) hpd)
        rw [hcast] at hih2
        rw [hih2]
        simp only [clientArea, setGeom]
        ring

lemma tileGo_area (p : Params) (m : MonGeom) (n : ℕ)
    (hrh : p.resizehints = false)
    (hmx1 : m.mx ≤ m.wx) (hmx2 : m.wx + m.ww ≤ m.mx + m.mw)
    (hmy1 : m.my ≤ m.wy) (hmy2 : m.wy + m.wh ≤ m.my + m.mh)
    (hwx1 : 0 ≤ m.wx) (hwx2 : m.wx + m.ww ≤ 32767)
    (hwy1 : 0 ≤ m.wy) (hwy2 : m.wy + m.wh ≤ 32767)
    (hwh0 : 0 ≤ m.wh)
    (hmw : u16 (lroundQ (m.mfact * m.ww)) ≤ m.ww)
    (hnd : 2 ≤ n → p.bh ≤ m.wh / ((n : ℤ) - 1)) :
    ∀ l : List Client,
      (l.filter (nexttiledPred m)).length = n →
      1 ≤ n →
      (∀ c ∈ l, nexttiledPred m c = true →
        0 ≤ c.bw ∧
        (n = 1 → 2 * c.bw + max 1 p.bh ≤ m.ww ∧ 2 * c.bw + max 1 p.bh ≤ m.wh) ∧
        (2 ≤ n → 2 * c.bw + max 1 p.bh ≤ u16 (lroundQ (m.mfact * m.ww)) ∧
          2 * c.bw + max 1 p.bh ≤ m.ww - u16 (lroundQ (m.mfact * m.ww)) ∧
          2 * c.bw + max 1 p.bh ≤ m.wh / ((n : ℤ) - 1) ∧
          2 * c.bw + max 1 p.bh ≤ m.wh)) →
      sumArea m (tileGo p m n l) = m.ww * m.wh := by
  intro l
  induction l with
  | nil =>
    intro hlen hn _
    simp at hlen
    omega
  | cons c rest ih =>
    intro hlen hn hcl
    by_cases hp : nexttiledPred m c = true
    case neg =>
      have hfl : ((c :: rest).filter (nexttiledPred m))
          = rest.filter (nexttiledPred m) := by
        simp [List.filter_cons, hp]
      rw [hfl] at hlen
      simp only [tileGo, hp, Bool.false_eq_true, if_false]
      rw [sumArea_cons]
      simp only [hp, Bool.false_eq_true, if_false, zero_add]
      exact ih hlen hn (fun d hd hpd => hcl d (List.mem_cons_of_mem c hd) hpd)
    case pos =>
      have hfl : ((c :: rest).filter (nexttiledPred m))
          = c :: rest.filter (nexttiledPred m) := by
        simp [List.filter_cons, hp]
      rw [hfl, List.length_cons] at hlen
      obtain ⟨hbw0, hn1cl, hn2cl⟩ := hcl c (List.mem_cons_self c rest) hp
      have h1max : (1 : ℤ) ≤ max 1 p.bh := le_max_left 1 p.bh
      have hbhmax : p.bh ≤ max 1 p.bh := le_max_right 1 p.bh
      have hcfl : c.isfloating = false :=
        Bool.eq_false_iff.mpr (fun hf => by simp [nexttiledPred, hf] at hp)
      have hmwB : 0 ≤ u16 (lroundQ (m.mfact * m.ww)) ∧
          u16 (lroundQ (m.mfact * m.ww)) ≤ 65535 := by
        unfold u16; omega
      simp only [tileGo, hp, if_true]
      by_cases hone : n = 1
      case pos =>
        subst hone
        have hrest0 : (rest.filter (nexttiledPred m)).length = 0 := by omega
        obtain ⟨hcw, hch⟩ := hn1cl rfl
        have hres : resize p m c m.wx m.wy ((if 1 = 1 then m.ww
            else u16 (lroundQ (m.mfact * m.ww))) - 2 * c.bw)
            (m.wh - 2 * c.bw) false
            = setGeom c ⟨m.wx, m.wy, m.ww - 2 * c.bw, m.wh - 2 * c.bw⟩ := by
          rw [if_pos rfl]
          apply resize_of_id
          apply applysizehints_id p m c _ _ _ _ hrh hcfl
          · constructor <;> omega
          · constructor <;> omega
          · constructor <;> omega
          · constructor <;> omega
          · constructor <;> omega
          · constructor <;> omega
        rw [hres]
        simp only [Nat.sub_self, eq_self_iff_true, ite_true]
        rw [sumArea_cons]
        have hpred2 : nexttiledPred m (setGeom c
            ⟨m.wx, m.wy, m.ww - 2 * c.bw, m.wh - 2 * c.bw⟩) = true := by
          simpa [nexttiledPred, isvisible, setGeom] using hp
        rw [if_pos hpred2, sumArea_zero m rest hrest0]
        simp only [clientArea, setGeom]
        ring
      case neg =>
        have hn2 : 2 ≤ n := by omega
        have hrow0 : 0 ≤ m.wh / ((n : ℤ) - 1) := by
          apply Int.ediv_nonneg hwh0
          omega
        have hrow65 : m.wh / ((n : ℤ) - 1) ≤ 65535 := by
          have hle : m.wh / ((n : ℤ) - 1) ≤ m.wh := by
            apply Int.ediv_le_self _ hwh0
          omega
        obtain ⟨hcmw, hcwmw, hcrow, hcwh⟩ := hn2cl hn2
        have hres : resize p m c m.wx m.wy ((if n = 1 then m.ww
            else u16 (lroundQ (m.mfact * m.ww))) - 2 * c.bw)
            (m.wh - 2 * c.bw) false
            = setGeom c ⟨m.wx, m.wy, u16 (lroundQ (m.mfact * m.ww)) - 2 * c.bw,
                m.wh - 2 * c.bw⟩ := by
          rw [if_neg hone]
          apply resize_of_id
          apply applysizehints_id p m c _ _ _ _ hrh hcfl
          · constructor <;> omega
          · constructor <;> omega
          · constructor <;> omega
          · constructor <;> omega
          · constructor <;> omega
          · constructor <;> omega
        rw [hres]
        have hneq0 : ¬(n - 1 = 0) := by omega
        rw [if_neg hneq0]
        set MW := u16 (lroundQ (m.mfact * m.ww)) with hMW
        set cm := setGeom c ⟨m.wx, m.wy, MW - 2 * c.bw, m.wh - 2 * c.bw⟩ with hcm
        have hcmx : cm.x = m.wx := rfl
        have hcmw2 : cm.w = MW - 2 * c.bw := rfl
        have hcmbw : cm.bw = c.bw := rfl
        have hxval : i16 (if m.wx + MW > cm.x + cm.w
            then cm.x + cm.w + 2 * cm.bw else m.wx + MW) = m.wx + MW := by
          rw [hcmx, hcmw2, hcmbw]
          have harg : (if m.wx + MW > m.wx + (MW - 2 * c.bw)
              then m.wx + (MW - 2 * c.bw) + 2 * c.bw else m.wx + MW)
              = m.wx + MW := by
            split_ifs <;> ring
          rw [harg]
          exact i16_eq_self _ (by omega) (by omega)
        rw [hxval]
        have hwval : u16 (if m.wx + MW > cm.x + cm.w
            then m.wx + m.ww - (m.wx + MW) else m.ww - MW) = m.ww - MW := by
          rw [hcmx, hcmw2]
          have harg : (if m.wx + MW > m.wx + (MW - 2 * c.bw)
              then m.wx + m.ww - (m.wx + MW) else m.ww - MW) = m.ww - MW := by
            split_ifs <;> ring
          rw [harg]
          exact u16_eq_self _ (by omega) (by omega)
        rw [hwval]
        have hdivcast : ((n - 1 : ℕ) : ℤ) = (n : ℤ) - 1 := by omega
        have hhval : u16 (m.wh / ((n - 1 : ℕ) : ℤ)) = m.wh / ((n : ℤ) - 1) := by
          rw [hdivcast]
          exact u16_eq_self _ hrow0 (by omega)
        rw [hhval]
        have hnofloor : ¬(m.wh / ((n : ℤ) - 1) < p.bh) := not_lt.mpr (hnd hn2)
        rw [if_neg hnofloor]
        rw [sumArea_cons]
        have hpred2 : nexttiledPred m cm = true := by
          simpa [hcm, nexttiledPred, isvisible, setGeom] using hp
        rw [if_pos hpred2]
        have hsh : ((n - 1 : ℕ) : ℤ) * (m.wh / ((n : ℤ) - 1)) ≤ m.wh := by
          rw [hdivcast]
          have := Int.ediv_add_emod m.wh ((n : ℤ) - 1)
          have hmod : 0 ≤ m.wh % ((n : ℤ) - 1) :=
            Int.emod_nonneg m.wh (by omega)
          omega
        have hstack := tileStack_area p m (m.wx + MW) (m.ww - MW)
          (m.wh / ((n : ℤ) - 1)) (n - 1) hrh
          (by omega) (by omega) (by omega) (by omega) (by omega) (by omega)
          hmy1 hmy2 hwy1 hwy2 hsh rest (0)
          (by omega) (by omega)
          (fun d hd hpd => by
            obtain ⟨hd0, _, hd2⟩ := hcl d (List.mem_cons_of_mem c hd) hpd
            obtain ⟨_, hdw, hdr, _⟩ := hd2 hn2
            exact ⟨hd0, hdw, hdr⟩)
        rw [show m.wy + ((0 : ℕ) : ℤ) * (m.wh / ((n : ℤ) - 1)) = m.wy by push_cast; ring]
          at hstack
        rw [hstack, hcm]
        simp only [clientArea, setGeom]
        push_cast
        ring

/-- Claim C2, amended: for a monitor with sane in-range geometry (work
area inside the screen rect, coordinates within int16, borders and the
bar height fitting inside every assigned rectangle) holding n >= 1
visible non-floating clients, and provided the layout is not degenerate
(when n >= 2 the stack row height wh/(n-1) is at least the bar height),
the n rectangles `tile` assigns have border-inclusive areas summing to
exactly ww * wh: the master column mw * wh plus the stack column
(ww - mw) * wh, the last stack client absorbing the height remainder.
In the degenerate case every stack row is given the full work-area
height instead and the sum exceeds ww * wh (see the counterexample). -/
theorem tile_area_covers (p : Params) (m : MonGeom) (cs : List Client)
    (hrh : p.resizehints = false)
    (hmx1 : m.mx ≤ m.wx) (hmx2 : m.wx + m.ww ≤ m.mx + m.mw)
    (hmy1 : m.my ≤ m.wy) (hmy2 : m.wy + m.wh ≤ m.my + m.mh)
    (hwx1 : 0 ≤ m.wx) (hwx2 : m.wx + m.ww ≤ 32767)
    (hwy1 : 0 ≤ m.wy) (hwy2 : m.wy + m.wh ≤ 32767)
    (hwh0 : 0 ≤ m.wh)
    (hmw : u16 (lroundQ (m.mfact * m.ww)) ≤ m.ww)
    (hn : 1 ≤ (cs.filter (nexttiledPred m)).length)
    (hnd : 2 ≤ (cs.filter (nexttiledPred m)).length →
      p.bh ≤ m.wh / (((cs.filter (nexttiledPred m)).length : ℤ) - 1))
    (hcl : ∀ c ∈ cs, nexttiledPred m c = true →
      0 ≤ c.bw ∧
      ((cs.filter (nexttiledPred m)).length = 1 →
        2 * c.bw + max 1 p.bh ≤ m.ww ∧ 2 * c.bw + max 1 p.bh ≤ m.wh) ∧
      (2 ≤ (cs.filter (nexttiledPred m)).length →
        2 * c.bw + max 1 p.bh ≤ u16 (lroundQ (m.mfact * m.ww)) ∧
        2 * c.bw + max 1 p.bh ≤ m.ww - u16 (lroundQ (m.mfact * m.ww)) ∧
        2 * c.bw + max 1 p.bh ≤ m.wh / (((cs.filter (nexttiledPred m)).length : ℤ) - 1) ∧
        2 * c.bw + max 1 p.bh ≤ m.wh)) :
    sumArea m (tile p m cs) = m.ww * m.wh := by
  have hne : ¬((cs.filter (nexttiledPred m)).length = 0) := by omega
  simp only [tile, hne, if_false]
  exact tileGo_area p m (cs.filter (nexttiledPred m)).length hrh hmx1 hmx2 hmy1 hmy2
    hwx1 hwx2 hwy1 hwy2 hwh0 hmw hnd cs rfl hn hcl

/-- Witness for C2 (amended): three hint-free borderless clients on a
100x100 work area with mfact 0.5: areas 50*100 + 50*50 + 50*50 = 10000. -/
theorem tile_area_covers_witness :
    sumArea tileOkMon (tile tilePar tileOkMon [plainCl 1, plainCl 2, plainCl 3])
      = tileOkMon.ww * tileOkMon.wh := by
  apply tile_area_covers tilePar tileOkMon [plainCl 1, plainCl 2, plainCl 3] rfl
  · decide
  · decide
  · decide
  · decide
  · decide
  · decide
  · decide
  · decide
  · decide
  · norm_num [tileOkMon, u16, lroundQ, qfloor]
  · decide
  · intro h
    norm_num [tileOkMon, tilePar, plainCl, nexttiledPred, isvisible, List.filter]
  · intro c hc hp
    have hlen : (([plainCl 1, plainCl 2, plainCl 3].filter
        (nexttiledPred tileOkMon)).length) = 3 := by decide
    rw [hlen]
    simp only [List.mem_cons, List.not_mem_nil, or_false] at hc
    rcases hc with rfl | rfl | rfl <;>
      exact ⟨by norm_num [plainCl], fun h1 => by omega,
        fun _ => by norm_num [tileOkMon, tilePar, plainCl, u16, lroundQ, qfloor]⟩

set_option maxHeartbeats 2000000 in
/-- Claim C2, counterexample: on a 100x10 work area with bar height 6 and
three tiled clients, the stack row height 10/2 = 5 falls below the bar
height, so both stack clients get the full work-area height: the areas
sum to 500 + 500 + 500 = 1500, not ww * wh = 1000. -/
theorem tile_degenerate_cex :
    sumArea tileDegMon (tile tilePar tileDegMon [plainCl 1, plainCl 2, plainCl 3]) = 1500 ∧
    tileDegMon.ww * tileDegMon.wh = 1000 ∧ ((1500 : ℤ) ≠ 1000) := by
  refine ⟨?_, by decide, by decide⟩
  norm_num [tile, tileGo, tileStack, resize, applysizehints, applyhintsWH, sumArea,
    clientArea, nexttiledPred, isvisible, setGeom, u16, i16, lroundQ, qfloor, fdivF,
    tilePar, tileDegMon, plainCl, List.filter]
